import Mathlib

/-!
Verification development for `har_analyzer.py`, a HAR (HTTP Archive) timing
analyzer.  The Python source is shallowly embedded: timing values (floats in
the source) are modelled by `ℚ`, HTTP status codes by `ℤ`, optional JSON
fields by `Option`, and the process-level effects (file system, argv,
`sys.exit`) by explicit parameters and an `Except` result.
-/

namespace Har

/-- The seven phase keys of the `timings` object of a HAR entry. -/
inductive PhaseKey where
  | blocked | dns | connect | send | wait | receive | ssl
deriving DecidableEq, Repr

/-- The eight measured quantities iterated by `calculate_statistics`
(`timing_phases` in the source): `total_time` plus the seven phases. -/
inductive StatKey where
  | total_time | blocked | dns | connect | send | wait | receive | ssl
deriving DecidableEq, Repr

/-- The injection of the seven phase keys into the eight stat keys. -/
def phaseField : PhaseKey → StatKey
  | .blocked => .blocked
  | .dns => .dns
  | .connect => .connect
  | .send => .send
  | .wait => .wait
  | .receive => .receive
  | .ssl => .ssl

/-- The `entry.request` object: optional `url` and `method` fields. -/
structure RawRequest where
  url : Option String
  method : Option String

/-- The `entry.response` object: optional `status` field. -/
structure RawResponse where
  status : Option Int

/-- The `entry.timings` object: the seven optional numeric phase fields. -/
structure RawTimings where
  blocked : Option ℚ
  dns : Option ℚ
  connect : Option ℚ
  send : Option ℚ
  wait : Option ℚ
  receive : Option ℚ
  ssl : Option ℚ

/-- Field access on a `timings` object (`timings.get(key, ...)` with the key
known to be one of the seven phase names). -/
def RawTimings.get (t : RawTimings) : PhaseKey → Option ℚ
  | .blocked => t.blocked
  | .dns => t.dns
  | .connect => t.connect
  | .send => t.send
  | .wait => t.wait
  | .receive => t.receive
  | .ssl => t.ssl

/-- One element of `log.entries`: `request`, `response`, `timings` and the
entry-level `time` field, all optional. -/
structure RawEntry where
  request : Option RawRequest
  response : Option RawResponse
  time : Option ℚ
  timings : Option RawTimings

/-- The empty JSON object used for an absent `request` (`entry.get('request', {})`). -/
def emptyRequest : RawRequest := ⟨none, none⟩

/-- The empty JSON object used for an absent `response`. -/
def emptyResponse : RawResponse := ⟨none⟩

/-- The empty JSON object used for absent `timings`. -/
def emptyTimings : RawTimings := ⟨none, none, none, none, none, none, none⟩

/-- The `TimingInfo` dataclass: one fully populated record per HTTP exchange. -/
structure TimingInfo where
  url : String
  method : String
  status : Int
  total_time : ℚ
  blocked : ℚ
  dns : ℚ
  connect : ℚ
  send : ℚ
  wait : ℚ
  receive : ℚ
  ssl : ℚ
deriving DecidableEq, Repr

/-- Field access `getattr(entry, phase)` for the eight stat keys. -/
def TimingInfo.get (r : TimingInfo) : StatKey → ℚ
  | .total_time => r.total_time
  | .blocked => r.blocked
  | .dns => r.dns
  | .connect => r.connect
  | .send => r.send
  | .wait => r.wait
  | .receive => r.receive
  | .ssl => r.ssl

/-- The helper `get_timing` (line 67): `value = timings.get(key, 0); return max(0, value)`. -/
def get_timing (timings : RawTimings) (k : PhaseKey) : ℚ :=
  max 0 ((timings.get k).getD 0)

/-- The per-entry body of the loop in `extract_timings` (lines 61-85):
build one `TimingInfo` from one raw entry, with defaults for every
missing field. -/
def extractOne (e : RawEntry) : TimingInfo :=
  let request := e.request.getD emptyRequest
  let response := e.response.getD emptyResponse
  let timings := e.timings.getD emptyTimings
  ⟨request.url.getD "unknown",
   request.method.getD "unknown",
   response.status.getD 0,
   e.time.getD 0,
   get_timing timings .blocked,
   get_timing timings .dns,
   get_timing timings .connect,
   get_timing timings .send,
   get_timing timings .wait,
   get_timing timings .receive,
   get_timing timings .ssl⟩

/-- The loop of `extract_timings` over `log.entries`. -/
def extract_timings (entries : List RawEntry) : List TimingInfo :=
  entries.map extractOne

/-- The fixed iteration order of `timing_phases` (line 92). -/
def timing_phases : List StatKey :=
  [.total_time, .blocked, .dns, .connect, .send, .wait, .receive, .ssl]

/-- Line 96: `[getattr(entry, phase) for entry in self.entries if getattr(entry, phase) > 0]`. -/
def qualifying (records : List TimingInfo) (k : StatKey) : List ℚ :=
  (records.filter (fun r => 0 < r.get k)).map (fun r => r.get k)

/-- Python `min(values)` on a nonempty list (0 on the empty list, unused). -/
def listMin : List ℚ → ℚ
  | [] => 0
  | x :: xs => xs.foldl min x

/-- Python `max(values)` on a nonempty list (0 on the empty list, unused). -/
def listMax : List ℚ → ℚ
  | [] => 0
  | x :: xs => xs.foldl max x

/-- Python `statistics.mean`: the sum divided by the count. -/
def meanQ (vs : List ℚ) : ℚ := vs.sum / vs.length

/-- Ascending stable sort of the values, as done inside `statistics.median`. -/
def sortedAsc (vs : List ℚ) : List ℚ :=
  vs.mergeSort (fun a b => decide (a ≤ b))

/-- Python `statistics.median`: middle element of the sorted values for odd counts,
average of the two middle elements for even counts. -/
def medianQ (vs : List ℚ) : ℚ :=
  let s := sortedAsc vs
  let n := vs.length
  if n % 2 = 1 then s.getD (n / 2) 0
  else (s.getD (n / 2 - 1) 0 + s.getD (n / 2) 0) / 2

/-- The square of `statistics.stdev`: the sample variance with the `n - 1`
divisor.  The source reports the square root as a float; the exact model
keeps the square in `ℚ` and takes `Real.sqrt` at statement level. -/
def stdevSq (vs : List ℚ) : ℚ :=
  (vs.map (fun x => (x - meanQ vs) ^ 2)).sum / ((vs.length : ℚ) - 1)

/-- The per-phase statistics dictionary (lines 99-117).  `std_dev_sq` holds
the square of the reported `std_dev` so the block stays in exact arithmetic. -/
structure StatBlock where
  count : Nat
  total : ℚ
  average : ℚ
  median : ℚ
  min : ℚ
  max : ℚ
  std_dev_sq : ℚ
deriving DecidableEq, Repr

/-- The reported sample standard deviation, as a real number. -/
noncomputable def StatBlock.std_dev (b : StatBlock) : ℝ := Real.sqrt b.std_dev_sq

/-- The all-zero block produced when no value qualifies (lines 109-117). -/
def zeroBlock : StatBlock := ⟨0, 0, 0, 0, 0, 0, 0⟩

/-- Lines 98-117: the statistics block for one phase's qualifying values,
with `stdev(values) if len(values) > 1 else 0.0`. -/
def describe (vs : List ℚ) : StatBlock :=
  if vs.isEmpty then zeroBlock
  else
    ⟨vs.length, vs.sum, meanQ vs, medianQ vs, listMin vs, listMax vs,
     if 1 < vs.length then stdevSq vs else 0⟩

/-- The method `calculate_statistics` (lines 87-119): empty dictionary on an empty
record list, otherwise one block per stat key in `timing_phases` order. -/
def calculate_statistics (records : List TimingInfo) : List (StatKey × StatBlock) :=
  if records.isEmpty then []
  else timing_phases.map (fun k => (k, describe (qualifying records k)))

/-- The comparison used by `sorted(..., key=lambda x: x.total_time, reverse=True)`:
descending by `total_time`, stable. -/
def slowLE (a b : TimingInfo) : Bool := decide (b.total_time ≤ a.total_time)

/-- The full stable descending sort inside `get_slowest_requests` (line 123). -/
def sortedByTotalDesc (records : List TimingInfo) : List TimingInfo :=
  records.mergeSort slowLE

/-- The method `get_slowest_requests` (lines 121-124): sort descending by total time,
take the first `n` (the source default is `n = 10`). -/
def get_slowest_requests (records : List TimingInfo) (n : Nat) : List TimingInfo :=
  (sortedByTotalDesc records).take n

/-- One step of the dictionary accumulation in `get_requests_by_status`
(line 130): increment the count of the status if present, else append it,
preserving insertion order as a Python dict does. -/
def bump : List (Int × Nat) → Int → List (Int × Nat)
  | [], s => [(s, 1)]
  | (k, c) :: rest, s =>
      if k = s then (k, c + 1) :: rest else (k, c) :: bump rest s

/-- Comparison of histogram items by status key; the keys are distinct, so
Python's lexicographic pair order coincides with key order. -/
def statusLE (a b : Int × Nat) : Bool := decide (a.1 ≤ b.1)

/-- The method `get_requests_by_status` (lines 126-131): count records per status,
then return the items sorted by ascending status. -/
def get_requests_by_status (records : List TimingInfo) : List (Int × Nat) :=
  (records.foldl (fun acc r => bump acc r.status) []).mergeSort statusLE

/-! ### Loader and entry point

File access, JSON parsing and `sys.exit` are effects; they are embedded by
an explicit file-system map `String → LoadOutcome` whose outcome mirrors the
exceptions the source catches, and by an `Except ExitErr` result where the
source calls `sys.exit`. -/

/-- An exit taken by the program: the exit code and the printed message. -/
structure ExitErr where
  code : Nat
  msg : String
deriving DecidableEq, Repr

/-- The parsed `log` object: it may or may not carry an `entries` key. -/
structure LogObj where
  entries : Option (List RawEntry)

/-- A parsed HAR document: it may or may not carry a `log` key. -/
structure HarDoc where
  log : Option LogObj

/-- What opening and JSON-parsing one path can yield: `FileNotFoundError`,
`json.JSONDecodeError` (with the decoder's message), or a parsed document. -/
inductive LoadOutcome where
  | fileNotFound
  | invalidJson (errMsg : String)
  | parsed (doc : HarDoc)

/-- The message printed on `FileNotFoundError` (line 45). -/
def notFoundMsg (path : String) : String :=
  "Error: File '" ++ path ++ "' not found."

/-- The message printed on `json.JSONDecodeError` (line 48). -/
def invalidJsonMsg (e : String) : String :=
  "Error: Invalid JSON in HAR file: " ++ e

/-- The message printed on a document without `log.entries` (line 56). -/
def invalidFormatMsg : String := "Error: Invalid HAR file format"

/-- The usage message printed when the file argument is missing (line 221). -/
def usageMsg : String :=
  "Usage: python har_analyzer.py <har_file_path> [--export <output.json>]"

/-- The method `load_har` (lines 38-49): return the parsed document, or exit 1 with a
distinct message for a missing file versus invalid JSON. -/
def load_har (path : String) (fs : String → LoadOutcome) : Except ExitErr HarDoc :=
  match fs path with
  | .fileNotFound => .error ⟨1, notFoundMsg path⟩
  | .invalidJson e => .error ⟨1, invalidJsonMsg e⟩
  | .parsed doc => .ok doc

/-- The method `extract_timings` as run from the top (lines 51-85): load, check
`'log' in har_data and 'entries' in har_data['log']`, then extract one
record per entry. -/
def runExtract (path : String) (fs : String → LoadOutcome) :
    Except ExitErr (List TimingInfo) :=
  match load_har path fs with
  | .error err => .error err
  | .ok doc =>
      match doc.log with
      | none => .error ⟨1, invalidFormatMsg⟩
      | some lg =>
          match lg.entries with
          | none => .error ⟨1, invalidFormatMsg⟩
          | some es => .ok (extract_timings es)

/-- The entry point `main` (lines 218-241): usage error when `len(sys.argv) < 2`, otherwise
the analysis of the file named by the first argument. -/
def main (argv : List String) (fs : String → LoadOutcome) :
    Except ExitErr (List TimingInfo) :=
  if argv.length < 2 then .error ⟨1, usageMsg⟩
  else runExtract (argv.getD 1 "") fs

/-! ### Structured export

`export_to_json` builds a JSON document; `json.dump` renders the integer
keys of `status_distribution` as decimal strings.  The JSON tree is
modelled by `JVal` and decimal rendering by an explicit codec. -/

/-- A JSON value as produced by `export_to_json` (numbers kept exact in `ℚ`). -/
inductive JVal where
  | num : ℚ → JVal
  | str : String → JVal
  | arr : List JVal → JVal
  | obj : List (String × JVal) → JVal

/-- The decimal digit characters. -/
def digitChar : Nat → Char
  | 0 => '0' | 1 => '1' | 2 => '2' | 3 => '3' | 4 => '4'
  | 5 => '5' | 6 => '6' | 7 => '7' | 8 => '8' | _ => '9'

/-- The numeric value of a decimal digit character, `none` on any other. -/
def digitVal (c : Char) : Option Nat :=
  if c = '0' then some 0 else if c = '1' then some 1 else
  if c = '2' then some 2 else if c = '3' then some 3 else
  if c = '4' then some 4 else if c = '5' then some 5 else
  if c = '6' then some 6 else if c = '7' then some 7 else
  if c = '8' then some 8 else if c = '9' then some 9 else none

/-- Standard decimal rendering of a natural number, most significant digit
first (what Python's `str` produces on a nonnegative int). -/
def encNat (n : Nat) : List Char :=
  if _h : n < 10 then [digitChar n]
  else encNat (n / 10) ++ [digitChar (n % 10)]
decreasing_by exact Nat.div_lt_self (by omega) (by omega)

/-- Fold decimal digit characters into a number, failing on a non-digit. -/
def decDigits (acc : Nat) : List Char → Option Nat
  | [] => some acc
  | c :: cs =>
      match digitVal c with
      | some d => decDigits (acc * 10 + d) cs
      | none => none

/-- Parse a nonempty all-digit character list as a natural number. -/
def decNat (cs : List Char) : Option Nat :=
  match cs with
  | [] => none
  | _ :: _ => decDigits 0 cs

/-- Python `str` on an int: optional minus sign, then decimal digits. -/
def encInt (i : Int) : String :=
  if i < 0 then ⟨'-' :: encNat i.natAbs⟩ else ⟨encNat i.toNat⟩

/-- Parse Python's rendering of an int back. -/
def decInt (s : String) : Option Int :=
  match s.data with
  | [] => none
  | c :: cs =>
      if c = '-' then (decNat cs).map (fun n : Nat => -(n : Int))
      else (decNat (c :: cs)).map (fun n : Nat => (n : Int))

/-- The names under which the eight stat keys appear in the export. -/
def statKeyName : StatKey → String
  | .total_time => "total_time"
  | .blocked => "blocked"
  | .dns => "dns"
  | .connect => "connect"
  | .send => "send"
  | .wait => "wait"
  | .receive => "receive"
  | .ssl => "ssl"

/-- The `status_distribution` object: integer keys become decimal strings
under `json.dump`. -/
def statusDistJson (h : List (Int × Nat)) : JVal :=
  .obj (h.map (fun p => (encInt p.1, .num (p.2 : ℚ))))

/-- One statistics block as exported (`std_dev` carries the square kept by
the exact model; the source writes its square root as a float). -/
def statBlockJson (b : StatBlock) : JVal :=
  .obj [("count", .num (b.count : ℚ)), ("total", .num b.total),
        ("average", .num b.average), ("median", .num b.median),
        ("min", .num b.min), ("max", .num b.max),
        ("std_dev", .num b.std_dev_sq)]

/-- One element of the `slowest_requests` list (lines 201-209). -/
def slowJson (r : TimingInfo) : JVal :=
  .obj [("url", .str r.url), ("method", .str r.method),
        ("status", .num (r.status : ℚ)), ("total_time_ms", .num r.total_time)]

/-- The method `export_to_json` (lines 188-213): the full exported document for a
source path and the session's records. -/
def export_to_json (path : String) (records : List TimingInfo) : JVal :=
  .obj [("summary", .obj [
           ("source_file", .str path),
           ("total_requests", .num (records.length : ℚ)),
           ("status_distribution", statusDistJson (get_requests_by_status records))]),
        ("timing_statistics", .obj ((calculate_statistics records).map
           (fun p => (statKeyName p.1, statBlockJson p.2)))),
        ("slowest_requests", .arr ((get_slowest_requests records 10).map slowJson))]

/-- Dictionary access on a parsed JSON object (`doc['key']`). -/
def getField (j : JVal) (k : String) : Option JVal :=
  match j with
  | .obj fields => (fields.find? (fun p => p.1 = k)).map (fun p => p.2)
  | _ => none

/-- Read a JSON number back as a natural number. -/
def jnat (j : JVal) : Option Nat :=
  match j with
  | .num q => if q.den = 1 ∧ 0 ≤ q.num then some q.num.toNat else none
  | _ => none

/-- Read a JSON number back as an integer. -/
def jint (j : JVal) : Option Int :=
  match j with
  | .num q => if q.den = 1 then some q.num else none
  | _ => none

/-- Read a JSON number back as a rational. -/
def jnum (j : JVal) : Option ℚ :=
  match j with
  | .num q => some q
  | _ => none

/-- Read a JSON string back. -/
def jstring (j : JVal) : Option String :=
  match j with
  | .str s => some s
  | _ => none

/-- Decode the `status_distribution` object back into an ordered list of
(status, count) pairs. -/
def decodeStatusDist : List (String × JVal) → Option (List (Int × Nat))
  | [] => some []
  | (k, v) :: rest => do
      let s ← decInt k
      let c ← jnat v
      let t ← decodeStatusDist rest
      some ((s, c) :: t)

/-- Decode one exported slowest-request object back into its four fields. -/
def decodeSlow (j : JVal) : Option (String × String × Int × ℚ) := do
  let u ← (getField j "url").bind jstring
  let m ← (getField j "method").bind jstring
  let s ← (getField j "status").bind jint
  let t ← (getField j "total_time_ms").bind jnum
  some (u, m, s, t)

/-- Decode the exported `slowest_requests` array. -/
def decodeSlowList : List JVal → Option (List (String × String × Int × ℚ))
  | [] => some []
  | j :: rest => do
      let r ← decodeSlow j
      let t ← decodeSlowList rest
      some (r :: t)

/-- Re-parse an export document: recover the total request count, the
status distribution and the slowest-request list. -/
def readExport (j : JVal) :
    Option (Nat × List (Int × Nat) × List (String × String × Int × ℚ)) := do
  let summary ← getField j "summary"
  let total ← (getField summary "total_requests").bind jnat
  let distJ ← getField summary "status_distribution"
  let dist ← match distJ with
             | .obj fields => decodeStatusDist fields
             | _ => none
  let slowJ ← getField j "slowest_requests"
  let slow ← match slowJ with
             | .arr xs => decodeSlowList xs
             | _ => none
  some (total, dist, slow)

/-! ### Helper lemmas -/

theorem extractOne_get_phase (e : RawEntry) (k : PhaseKey) :
    (extractOne e).get (phaseField k) = get_timing (e.timings.getD emptyTimings) k := by
  cases k <;> rfl

theorem qualifying_append (l₁ l₂ : List TimingInfo) (k : StatKey) :
    qualifying (l₁ ++ l₂) k = qualifying l₁ k ++ qualifying l₂ k := by
  simp [qualifying, List.filter_append]

theorem qualifying_cons (r : TimingInfo) (l : List TimingInfo) (k : StatKey) :
    qualifying (r :: l) k =
      (if 0 < r.get k then [r.get k] else []) ++ qualifying l k := by
  simp only [qualifying, List.filter_cons]
  by_cases h : 0 < r.get k <;> simp [h]

theorem qualifying_middle (l₁ l₂ : List TimingInfo) (r : TimingInfo) (k : StatKey) :
    qualifying (l₁ ++ r :: l₂) k =
      qualifying l₁ k ++ (if 0 < r.get k then [r.get k] else []) ++ qualifying l₂ k := by
  rw [qualifying_append, qualifying_cons, List.append_assoc]

/-- C1: each stored phase value is `max 0 (entry.timings.<phase>)` with
default `0`, so a `-1` sentinel becomes exactly `0`; a record whose value
for a phase is `0` drops out of that phase's qualifying values, while a
strictly positive value for another phase still contributes there. -/
theorem phase_clamp_and_exclusion :
    ∀ (e : RawEntry) (k : PhaseKey),
      ((extractOne e).get (phaseField k) = max 0 (((e.timings.getD emptyTimings).get k).getD 0))
    ∧ ((e.timings.getD emptyTimings).get k = some (-1) →
        (extractOne e).get (phaseField k) = 0)
    ∧ ∀ (l₁ l₂ : List TimingInfo) (r : TimingInfo) (f : StatKey),
        (r.get f = 0 → qualifying (l₁ ++ r :: l₂) f = qualifying (l₁ ++ l₂) f)
      ∧ (0 < r.get f →
          qualifying (l₁ ++ r :: l₂) f = qualifying l₁ f ++ r.get f :: qualifying l₂ f) := by
  intro e k
  refine ⟨extractOne_get_phase e k, ?_, ?_⟩
  · intro h
    rw [extractOne_get_phase, get_timing, h]
    norm_num
  · intro l₁ l₂ r f
    constructor
    · intro h
      rw [qualifying_middle, qualifying_append, h]
      norm_num
    · intro h
      rw [qualifying_middle, if_pos h]
      simp

/-- Witness for C1 at a concrete entry whose `blocked` timing is the `-1`
sentinel and a concrete record with `dns = 0` and `ssl = 2`. -/
theorem phase_clamp_and_exclusion_witness :
    (extractOne ⟨none, none, none, some ⟨some (-1), none, none, none, none, none, none⟩⟩).get
        (phaseField .blocked) = 0
  ∧ qualifying ([] ++ ⟨"u", "m", 0, 0, 0, 0, 0, 0, 0, 0, 2⟩ :: []) .dns =
      qualifying ([] ++ []) .dns
  ∧ qualifying ([] ++ ⟨"u", "m", 0, 0, 0, 0, 0, 0, 0, 0, 2⟩ :: []) .ssl =
      qualifying [] .ssl ++ (⟨"u", "m", 0, 0, 0, 0, 0, 0, 0, 0, 2⟩ : TimingInfo).get .ssl ::
        qualifying [] .ssl := by
  have h := phase_clamp_and_exclusion
    ⟨none, none, none, some ⟨some (-1), none, none, none, none, none, none⟩⟩ .blocked
  have h3 := h.2.2 [] [] ⟨"u", "m", 0, 0, 0, 0, 0, 0, 0, 0, 2⟩
  exact ⟨h.2.1 rfl, (h3 .dns).1 rfl, (h3 .ssl).2 (by norm_num [TimingInfo.get])⟩

/-- C5: extraction is total per entry — a missing `request`, `response`,
`timings` or `time` yields the documented defaults, a fully empty entry
still yields one fully populated record, and the record produced for an
entry does not depend on the other entries. -/
theorem extract_robust :
    ∀ (e : RawEntry),
      (e.request = none →
        (extractOne e).url = "unknown" ∧ (extractOne e).method = "unknown")
    ∧ (e.response = none → (extractOne e).status = 0)
    ∧ (e.timings = none → ∀ k, (extractOne e).get (phaseField k) = 0)
    ∧ (e.time = none → (extractOne e).total_time = 0)
    ∧ extractOne ⟨none, none, none, none⟩ =
        ⟨"unknown", "unknown", 0, 0, 0, 0, 0, 0, 0, 0, 0⟩
    ∧ ∀ (l₁ l₂ : List RawEntry),
        extract_timings (l₁ ++ e :: l₂) =
          extract_timings l₁ ++ extractOne e :: extract_timings l₂ := by
  intro e
  refine ⟨?_, ?_, ?_, ?_, ?_, ?_⟩
  · intro h
    simp [extractOne, h, emptyRequest]
  · intro h
    simp [extractOne, h, emptyResponse]
  · intro h k
    rw [extractOne_get_phase, h]
    cases k <;> simp [get_timing, emptyTimings, RawTimings.get, Option.getD]
  · intro h
    simp [extractOne, h]
  · rfl
  · intro l₁ l₂
    simp [extract_timings]

/-- Witness for C5 at the fully empty entry. -/
theorem extract_robust_witness :
    (extractOne ⟨none, none, none, none⟩).url = "unknown"
  ∧ (extractOne ⟨none, none, none, none⟩).method = "unknown"
  ∧ (extractOne ⟨none, none, none, none⟩).status = 0
  ∧ (extractOne ⟨none, none, none, none⟩).get (phaseField .dns) = 0
  ∧ (extractOne ⟨none, none, none, none⟩).total_time = 0
  ∧ extract_timings ([] ++ ⟨none, none, none, none⟩ :: []) =
      extract_timings [] ++ extractOne ⟨none, none, none, none⟩ :: extract_timings [] := by
  have h := extract_robust ⟨none, none, none, none⟩
  exact ⟨(h.1 rfl).1, (h.1 rfl).2, h.2.1 rfl, h.2.2.1 rfl .dns, h.2.2.2.1 rfl,
    h.2.2.2.2.2 [] []⟩

/-- C7: an empty record list yields the completely empty statistics result,
while any nonempty record list yields a result carrying all eight
quantities in order — with the all-zero block for a quantity without
qualifying values — so the two situations are distinguishable. -/
theorem stats_empty_vs_zero :
    calculate_statistics [] = []
  ∧ ∀ (rs : List TimingInfo), rs ≠ [] →
      ((calculate_statistics rs).map Prod.fst = timing_phases
      ∧ calculate_statistics rs ≠ []
      ∧ ∀ k ∈ timing_phases, qualifying rs k = [] →
          (k, zeroBlock) ∈ calculate_statistics rs) := by
  constructor
  · rfl
  · intro rs hrs
    have hne : rs.isEmpty = false := by
      cases rs with
      | nil => exact absurd rfl hrs
      | cons a l => rfl
    refine ⟨?_, ?_, ?_⟩
    · simp [calculate_statistics, hne, List.map_map, Function.comp_def]
    · simp [calculate_statistics, hne, timing_phases]
    · intro k hk hq
      simp only [calculate_statistics, hne, Bool.false_eq_true, if_false, List.mem_map]
      exact ⟨k, hk, by rw [hq]; rfl⟩

/-- Witness for C7 at a one-record list whose values are all zero except a
positive total time. -/
theorem stats_empty_vs_zero_witness :
    calculate_statistics [] = []
  ∧ (calculate_statistics [⟨"u", "GET", 200, 5, 0, 0, 0, 0, 0, 0, 0⟩]).map Prod.fst =
      timing_phases
  ∧ calculate_statistics [⟨"u", "GET", 200, 5, 0, 0, 0, 0, 0, 0, 0⟩] ≠ []
  ∧ (StatKey.dns, zeroBlock) ∈ calculate_statistics [⟨"u", "GET", 200, 5, 0, 0, 0, 0, 0, 0, 0⟩] := by
  have h := stats_empty_vs_zero
  have h2 := h.2 [⟨"u", "GET", 200, 5, 0, 0, 0, 0, 0, 0, 0⟩] (by simp)
  exact ⟨h.1, h2.1, h2.2.1, h2.2.2 .dns (by decide) (by decide)⟩

/-- C9: on a document with a `log.entries` list, extraction succeeds and
produces exactly one record per entry. -/
theorem extract_count (path : String) (fs : String → LoadOutcome) (doc : HarDoc)
    (lg : LogObj) (es : List RawEntry)
    (hfs : fs path = .parsed doc) (hlog : doc.log = some lg)
    (hes : lg.entries = some es) :
    runExtract path fs = .ok (extract_timings es)
  ∧ (extract_timings es).length = es.length := by
  constructor
  · simp [runExtract, load_har, hfs, hlog, hes]
  · simp [extract_timings]

/-- Witness for C9 at a one-entry document. -/
theorem extract_count_witness :
    runExtract "a.har"
        (fun _ => .parsed ⟨some ⟨some [⟨none, none, none, none⟩]⟩⟩) =
      .ok (extract_timings [⟨none, none, none, none⟩])
  ∧ (extract_timings [⟨none, none, none, none⟩]).length = 1 := by
  have h := extract_count "a.har"
    (fun _ => .parsed ⟨some ⟨some [⟨none, none, none, none⟩]⟩⟩)
    ⟨some ⟨some [⟨none, none, none, none⟩]⟩⟩ ⟨some [⟨none, none, none, none⟩]⟩
    [⟨none, none, none, none⟩] rfl rfl rfl
  exact ⟨h.1, h.2⟩

theorem slowLE_trans : ∀ (a b c : TimingInfo), slowLE a b → slowLE b c → slowLE a c := by
  intro a b c hab hbc
  simp only [slowLE, decide_eq_true_eq] at *
  exact le_trans hbc hab

theorem slowLE_total : ∀ (a b : TimingInfo), slowLE a b || slowLE b a := by
  intro a b
  simp only [slowLE, Bool.or_eq_true, decide_eq_true_eq]
  exact le_total _ _

/-- Stability of the descending sort: for every total-time value, the
records carrying that value appear in the sorted list exactly as they
appear in the input. -/
theorem sortedByTotalDesc_filter (rs : List TimingInfo) (q : ℚ) :
    (sortedByTotalDesc rs).filter (fun r => r.total_time = q) =
      rs.filter (fun r => r.total_time = q) := by
  have hpair : (rs.filter (fun r => r.total_time = q)).Pairwise (fun a b => slowLE a b) := by
    apply List.pairwise_of_forall_mem_list
    intro a ha b hb
    have ha' := (List.mem_filter.mp ha).2
    have hb' := (List.mem_filter.mp hb).2
    simp only [decide_eq_true_eq] at ha' hb'
    simp [slowLE, ha', hb']
  have hsub : List.Sublist (rs.filter (fun r => r.total_time = q)) (sortedByTotalDesc rs) :=
    List.sublist_mergeSort slowLE_trans slowLE_total hpair (List.filter_sublist rs)
  have hsub2 : List.Sublist (rs.filter (fun r => r.total_time = q))
      ((sortedByTotalDesc rs).filter (fun r => r.total_time = q)) := by
    have := hsub.filter (fun r => decide (r.total_time = q))
    simpa [List.filter_filter] using this
  have hlen : ((sortedByTotalDesc rs).filter (fun r => r.total_time = q)).length =
      (rs.filter (fun r => r.total_time = q)).length :=
    ((List.mergeSort_perm rs slowLE).filter _).length_eq
  exact (hsub2.eq_of_length hlen.symm).symm

/-- C2: the slowest-N list is the first `n` elements of the stable
descending sort of the records: it is sorted by `total_time` descending,
ties keep their original extraction order, and its length is
`min n (number of records)`. -/
theorem slowest_sorted_stable_len (rs : List TimingInfo) (n : Nat) :
    (get_slowest_requests rs n).Pairwise (fun a b => b.total_time ≤ a.total_time)
  ∧ (get_slowest_requests rs n).length = min n rs.length
  ∧ get_slowest_requests rs n = (sortedByTotalDesc rs).take n
  ∧ ∀ q : ℚ, (sortedByTotalDesc rs).filter (fun r => r.total_time = q) =
      rs.filter (fun r => r.total_time = q) := by
  refine ⟨?_, ?_, rfl, fun q => sortedByTotalDesc_filter rs q⟩
  · have hs : (sortedByTotalDesc rs).Pairwise (fun a b => slowLE a b) :=
      List.sorted_mergeSort slowLE_trans slowLE_total rs
    have ht : (get_slowest_requests rs n).Pairwise (fun a b => slowLE a b) :=
      List.Pairwise.sublist (List.take_sublist n (sortedByTotalDesc rs)) hs
    exact ht.imp (fun h => by simpa [slowLE] using h)
  · simp [get_slowest_requests, sortedByTotalDesc, List.length_take]

/-- A list sorted descending by total time is its nonnegative records
followed by its negative records. -/
theorem sorted_desc_split (l : List TimingInfo)
    (h : l.Pairwise (fun a b => slowLE a b)) :
    l = l.filter (fun r => 0 ≤ r.total_time) ++ l.filter (fun r => r.total_time < 0) := by
  induction l with
  | nil => rfl
  | cons a t ih =>
    have rel : ∀ b ∈ t, slowLE a b := fun b hb => List.rel_of_pairwise_cons h hb
    have hp := List.Pairwise.of_cons h
    by_cases ha : 0 ≤ a.total_time
    · have ha' : ¬ a.total_time < 0 := not_lt.mpr ha
      simp only [List.filter_cons, decide_eq_true_eq, ha, if_pos, ha',
        decide_eq_false ha', Bool.false_eq_true, if_false, decide_True, List.cons_append]
      exact congrArg (a :: ·) (ih hp)
    · have hall : ∀ b ∈ t, b.total_time < 0 := by
        intro b hb
        have := rel b hb
        simp only [slowLE, decide_eq_true_eq] at this
        exact lt_of_le_of_lt this (not_le.mp ha)
      have h1 : t.filter (fun r => decide (0 ≤ r.total_time)) = [] :=
        List.filter_eq_nil_iff.mpr (fun b hb => by simp [not_le.mp ha, hall b hb, not_le])
      have h2 : t.filter (fun r => decide (r.total_time < 0)) = t :=
        List.filter_eq_self.mpr (fun b hb => by simp [hall b hb])
      have ha2 : a.total_time < 0 := not_le.mp ha
      simp only [List.filter_cons, decide_eq_true_eq, ha, decide_eq_false ha,
        Bool.false_eq_true, if_false, ha2, decide_eq_true ha2, if_pos, h1, h2,
        List.nil_append]

/-- C10: `total_time` is taken verbatim from the entry-level `time` field
with default `0` and is never clamped, so a `-1` sentinel is stored as a
negative total time; in the descending ranking all records with negative
total time come after all records with nonnegative total time, and a
negative total time never qualifies for the `total_time` statistics. -/
theorem total_time_unclamped :
    ∀ (e : RawEntry),
      ((extractOne e).total_time = e.time.getD 0)
    ∧ (e.time = some (-1) → (extractOne e).total_time = -1)
    ∧ (∀ rs : List TimingInfo,
        sortedByTotalDesc rs =
          (sortedByTotalDesc rs).filter (fun r => 0 ≤ r.total_time)
          ++ (sortedByTotalDesc rs).filter (fun r => r.total_time < 0))
    ∧ (∀ (l₁ l₂ : List TimingInfo) (r : TimingInfo),
        r.total_time < 0 →
          qualifying (l₁ ++ r :: l₂) .total_time = qualifying (l₁ ++ l₂) .total_time) := by
  intro e
  refine ⟨rfl, ?_, ?_, ?_⟩
  · intro h
    simp [extractOne, h]
  · intro rs
    exact sorted_desc_split _ (List.sorted_mergeSort slowLE_trans slowLE_total rs)
  · intro l₁ l₂ r h
    rw [qualifying_middle, qualifying_append]
    have : ¬ (0 < r.get .total_time) := by
      simp only [TimingInfo.get]
      exact not_lt.mpr (le_of_lt h)
    rw [if_neg this]
    simp

/-- A concrete record with a positive total time, for witnesses. -/
def recP : TimingInfo := ⟨"p", "m", 0, 5, 0, 0, 0, 0, 0, 0, 0⟩

/-- A concrete record with the `-1` sentinel stored as total time. -/
def recN : TimingInfo := ⟨"n", "m", 0, -1, 0, 0, 0, 0, 0, 0, 0⟩

/-- Witness for C10 at a concrete entry with `time = -1` and a concrete
two-record list with one negative-total-time record. -/
theorem total_time_unclamped_witness :
    (extractOne ⟨none, none, some (-1), none⟩).total_time = -1
  ∧ sortedByTotalDesc [recP, recN] =
      (sortedByTotalDesc [recP, recN]).filter (fun r => 0 ≤ r.total_time)
      ++ (sortedByTotalDesc [recP, recN]).filter (fun r => r.total_time < 0)
  ∧ qualifying ([] ++ recN :: []) .total_time = qualifying ([] ++ []) .total_time := by
  have h := total_time_unclamped ⟨none, none, some (-1), none⟩
  exact ⟨h.2.1 rfl, h.2.2.1 [recP, recN],
    h.2.2.2 [] [] recN (by norm_num [recN])⟩

/-! ### Status histogram lemmas -/

theorem bump_sum (acc : List (Int × Nat)) (s : Int) :
    ((bump acc s).map Prod.snd).sum = (acc.map Prod.snd).sum + 1 := by
  induction acc with
  | nil => rfl
  | cons hd tl ih =>
    cases hd with
    | mk k c =>
      by_cases h : k = s
      · simp [bump, h]
        omega
      · simp [bump, h, ih]
        omega

theorem mem_keys_bump (acc : List (Int × Nat)) (s t : Int) :
    t ∈ (bump acc s).map Prod.fst ↔ t ∈ acc.map Prod.fst ∨ t = s := by
  induction acc with
  | nil => simp [bump]
  | cons hd tl ih =>
    cases hd with
    | mk k c =>
      by_cases h : k = s
      · subst h
        simp [bump]
        tauto
      · simp [bump, h, ih]
        tauto

theorem keys_bump_nodup (acc : List (Int × Nat)) (s : Int)
    (h : (acc.map Prod.fst).Nodup) : ((bump acc s).map Prod.fst).Nodup := by
  induction acc with
  | nil => simp [bump]
  | cons hd tl ih =>
    cases hd with
    | mk k c =>
      by_cases hk : k = s
      · simpa [bump, hk] using h
      · simp only [List.map_cons, List.nodup_cons] at h
        have := ih h.2
        simp only [bump, hk, if_neg, ite_false, List.map_cons, List.nodup_cons]
        refine ⟨?_, this⟩
        rw [mem_keys_bump]
        push_neg
        exact ⟨h.1, fun hs => hk hs⟩

theorem foldl_bump_sum (rs : List TimingInfo) (acc : List (Int × Nat)) :
    (((rs.foldl (fun a r => bump a r.status) acc)).map Prod.snd).sum =
      (acc.map Prod.snd).sum + rs.length := by
  induction rs generalizing acc with
  | nil => simp
  | cons r t ih =>
    simp only [List.foldl_cons, ih, bump_sum, List.length_cons]
    omega

theorem foldl_bump_keys_mem (rs : List TimingInfo) (acc : List (Int × Nat)) (s : Int) :
    s ∈ ((rs.foldl (fun a r => bump a r.status) acc)).map Prod.fst ↔
      s ∈ acc.map Prod.fst ∨ ∃ r ∈ rs, r.status = s := by
  induction rs generalizing acc with
  | nil => simp
  | cons r t ih =>
    simp only [List.foldl_cons, ih, mem_keys_bump, List.mem_cons]
    constructor
    · rintro ((h | h) | ⟨r', hr', hs⟩)
      · exact Or.inl h
      · exact Or.inr ⟨r, Or.inl rfl, h.symm⟩
      · exact Or.inr ⟨r', Or.inr hr', hs⟩
    · rintro (h | ⟨r', hr' | hr', hs⟩)
      · exact Or.inl (Or.inl h)
      · exact Or.inl (Or.inr (by rw [← hs, hr']))
      · exact Or.inr ⟨r', hr', hs⟩

theorem foldl_bump_keys_nodup (rs : List TimingInfo) (acc : List (Int × Nat))
    (h : (acc.map Prod.fst).Nodup) :
    (((rs.foldl (fun a r => bump a r.status) acc)).map Prod.fst).Nodup := by
  induction rs generalizing acc with
  | nil => exact h
  | cons r t ih => exact ih _ (keys_bump_nodup acc r.status h)

theorem statusLE_trans : ∀ (a b c : Int × Nat), statusLE a b → statusLE b c → statusLE a c := by
  intro a b c hab hbc
  simp only [statusLE, decide_eq_true_eq] at *
  exact le_trans hab hbc

theorem statusLE_total : ∀ (a b : Int × Nat), statusLE a b || statusLE b a := by
  intro a b
  simp only [statusLE, Bool.or_eq_true, decide_eq_true_eq]
  exact le_total _ _

/-- C6: the histogram's keys are exactly the distinct status values of the
records, sorted strictly ascending, and its counts sum to the record count. -/
theorem status_histogram_spec (rs : List TimingInfo) :
    ((get_requests_by_status rs).map Prod.fst).Pairwise (· < ·)
  ∧ (∀ s : Int, s ∈ (get_requests_by_status rs).map Prod.fst ↔ ∃ r ∈ rs, r.status = s)
  ∧ ((get_requests_by_status rs).map Prod.snd).sum = rs.length := by
  have hperm : List.Perm (get_requests_by_status rs)
      (rs.foldl (fun a r => bump a r.status) []) :=
    List.mergeSort_perm _ statusLE
  refine ⟨?_, ?_, ?_⟩
  · have hs : (get_requests_by_status rs).Pairwise (fun a b => statusLE a b) :=
      List.sorted_mergeSort statusLE_trans statusLE_total _
    have hle : ((get_requests_by_status rs).map Prod.fst).Pairwise (· ≤ ·) := by
      rw [List.pairwise_map]
      exact hs.imp (fun h => by simpa [statusLE] using h)
    have hnd : ((get_requests_by_status rs).map Prod.fst).Nodup :=
      (foldl_bump_keys_nodup rs [] (by simp)).perm ((hperm.map Prod.fst).symm)
    exact (hle.and hnd).imp (fun h => lt_of_le_of_ne h.1 h.2)
  · intro s
    rw [(hperm.map Prod.fst).mem_iff, foldl_bump_keys_mem]
    simp
  · rw [(hperm.map Prod.snd).sum_eq, foldl_bump_sum]
    simp

/-! ### Statistics versus their textbook definitions -/

/-- The arithmetic mean as a real number, written from the spec's words. -/
noncomputable def specMean (vs : List ℚ) : ℝ := (vs.map (fun x : ℚ => (x : ℝ))).sum / vs.length

/-- The sample standard deviation with the `n - 1` divisor, written from
the spec's words, as a real number. -/
noncomputable def specSampleStdDev (vs : List ℚ) : ℝ :=
  Real.sqrt ((vs.map (fun x : ℚ => ((x : ℝ) - specMean vs) ^ 2)).sum / ((vs.length : ℝ) - 1))

theorem cast_list_sum_real (vs : List ℚ) :
    ((vs.sum : ℚ) : ℝ) = (vs.map (fun x : ℚ => (x : ℝ))).sum := by
  induction vs with
  | nil => simp
  | cons x t ih => simp [Rat.cast_add, ih]

theorem meanQ_cast (vs : List ℚ) : ((meanQ vs : ℚ) : ℝ) = specMean vs := by
  unfold meanQ specMean
  rw [Rat.cast_div, cast_list_sum_real, Rat.cast_natCast]

theorem stdevSq_cast (vs : List ℚ) :
    ((stdevSq vs : ℚ) : ℝ) =
      (vs.map (fun x : ℚ => ((x : ℝ) - specMean vs) ^ 2)).sum / ((vs.length : ℝ) - 1) := by
  unfold stdevSq
  rw [Rat.cast_div]
  congr 1
  · rw [cast_list_sum_real, List.map_map]
    refine congrArg List.sum (List.map_congr_left ?_)
    intro x hx
    simp only [Function.comp_apply]
    rw [Rat.cast_pow, Rat.cast_sub, meanQ_cast]
  · rw [Rat.cast_sub, Rat.cast_natCast, Rat.cast_one]

/-- Helper: a quantity with no qualifying values still appears, with the
all-zero block. -/
theorem mem_stats_zeroBlock (rs : List TimingInfo) (k : StatKey) (hrs : rs ≠ [])
    (hk : k ∈ timing_phases) (hq : qualifying rs k = []) :
    (k, zeroBlock) ∈ calculate_statistics rs := by
  have hne : rs.isEmpty = false := by
    cases rs with
    | nil => exact absurd rfl hrs
    | cons a l => rfl
  simp only [calculate_statistics, hne, Bool.false_eq_true, if_false, List.mem_map]
  exact ⟨k, hk, by rw [hq]; rfl⟩

/-- C3: with exactly one qualifying value the reported standard deviation
is exactly `0`; with no qualifying values the quantity still appears with
the all-zero block; with two or more values the standard deviation is the
textbook sample standard deviation (divisor `n - 1`), and for even counts
the median is the average of the two middle values of the sorted list. -/
theorem stats_stddev_median_spec :
    ∀ vs : List ℚ,
      (vs.length = 1 → (describe vs).std_dev = 0)
    ∧ (∀ (rs : List TimingInfo) (k : StatKey), rs ≠ [] → k ∈ timing_phases →
        qualifying rs k = [] → (k, zeroBlock) ∈ calculate_statistics rs)
    ∧ (zeroBlock.count = 0 ∧ zeroBlock.total = 0 ∧ zeroBlock.average = 0
        ∧ zeroBlock.median = 0 ∧ zeroBlock.min = 0 ∧ zeroBlock.max = 0
        ∧ zeroBlock.std_dev = 0)
    ∧ (2 ≤ vs.length → (describe vs).std_dev = specSampleStdDev vs)
    ∧ (vs.length % 2 = 0 → vs ≠ [] → ∀ s : List ℚ, List.Perm s vs →
        s.Pairwise (· ≤ ·) →
        (describe vs).median =
          (s.getD (vs.length / 2 - 1) 0 + s.getD (vs.length / 2) 0) / 2) := by
  intro vs
  refine ⟨?_, mem_stats_zeroBlock, ?_, ?_, ?_⟩
  · intro h
    cases vs with
    | nil => simp at h
    | cons x xs =>
      have hxs : xs = [] := by
        simpa using List.length_eq_zero.mp (by simpa using h)
      subst hxs
      simp [describe, StatBlock.std_dev]
  · refine ⟨rfl, rfl, rfl, rfl, rfl, rfl, ?_⟩
    simp [zeroBlock, StatBlock.std_dev]
  · intro h
    have hne : vs.isEmpty = false := by
      cases vs with
      | nil => simp at h
      | cons a l => rfl
    have hgt : 1 < vs.length := h
    simp only [describe, hne, Bool.false_eq_true, if_false, StatBlock.std_dev]
    rw [if_pos hgt, stdevSq_cast]
    rfl
  · intro heven hvs s hperm hsorted
    have hne : vs.isEmpty = false := by
      cases vs with
      | nil => exact absurd rfl hvs
      | cons a l => rfl
    have hodd : ¬ vs.length % 2 = 1 := by omega
    have hs1 : (sortedAsc vs).Pairwise (· ≤ ·) := by
      have := @List.sorted_mergeSort ℚ (fun a b => decide (a ≤ b))
        (fun a b c hab hbc => by
          simp only [decide_eq_true_eq] at *
          exact le_trans hab hbc)
        (fun a b => by
          simp only [Bool.or_eq_true, decide_eq_true_eq]
          exact le_total a b) vs
      exact this.imp (fun h => by simpa using h)
    have hperm2 : List.Perm (sortedAsc vs) s :=
      (List.mergeSort_perm vs _).trans hperm.symm
    have hss : sortedAsc vs = s :=
      List.eq_of_perm_of_sorted hperm2 hs1 hsorted
    simp only [describe, hne, Bool.false_eq_true, if_false, medianQ]
    rw [if_neg hodd, hss]

/-- Witness for C3 at the one-value list `[5]`, the two-value list `[3, 1]`
and a record list with no qualifying `dns` value. -/
theorem stats_stddev_median_spec_witness :
    (describe [5]).std_dev = 0
  ∧ (StatKey.dns, zeroBlock) ∈ calculate_statistics [recP]
  ∧ zeroBlock.std_dev = 0
  ∧ (describe [3, 1]).std_dev = specSampleStdDev [3, 1]
  ∧ (describe [3, 1]).median = (([1, 3] : List ℚ).getD 0 0 + ([1, 3] : List ℚ).getD 1 0) / 2 := by
  have h1 := stats_stddev_median_spec [5]
  have h2 := stats_stddev_median_spec [3, 1]
  refine ⟨h1.1 rfl, ?_, h1.2.2.1.2.2.2.2.2.2, h2.2.2.2.1 (by norm_num), ?_⟩
  · exact h1.2.1 [recP] .dns (by simp) (by decide) (by decide)
  · exact h2.2.2.2.2 (by norm_num) (by simp) [1, 3] (List.Perm.swap 3 1 []) (by decide)

/-! ### Fatal error paths -/

/-- The file-not-found message and the invalid-JSON message differ for all
path and decoder-message contents: they diverge at character index 7
('F' versus 'I'). -/
theorem notFound_ne_invalidJson (p e : String) : notFoundMsg p ≠ invalidJsonMsg e := by
  intro h
  have hd := congrArg String.data h
  simp only [notFoundMsg, invalidJsonMsg, String.data_append] at hd
  have hlen : ("Error: File '".data).length = 13 := rfl
  have h1 : (("Error: File '".data ++ p.data) ++ "' not found.".data)[7]? = some 'F' := by
    rw [List.getElem?_append_left (by simp [hlen]), List.getElem?_append_left (by omega)]
    rfl
  have h2 : ("Error: Invalid JSON in HAR file: ".data ++ e.data)[7]? = some 'I' := by
    rw [List.getElem?_append_left (by simp)]
    rfl
  rw [hd, h2] at h1
  simp at h1

/-- C8: each fatal case — missing argument, missing file, invalid JSON,
or a document without `log.entries` — terminates with exit code 1 and its
message; the file-not-found and invalid-JSON messages are always
distinguishable; and loading is all-or-nothing. -/
theorem fatal_errors_spec :
    ∀ (argv : List String) (fs : String → LoadOutcome) (path e : String) (doc : HarDoc),
      (argv.length < 2 → main argv fs = .error ⟨1, usageMsg⟩)
    ∧ (fs path = .fileNotFound → runExtract path fs = .error ⟨1, notFoundMsg path⟩)
    ∧ (fs path = .invalidJson e → runExtract path fs = .error ⟨1, invalidJsonMsg e⟩)
    ∧ (fs path = .parsed doc → doc.log = none →
        runExtract path fs = .error ⟨1, invalidFormatMsg⟩)
    ∧ (∀ lg : LogObj, fs path = .parsed doc → doc.log = some lg → lg.entries = none →
        runExtract path fs = .error ⟨1, invalidFormatMsg⟩)
    ∧ notFoundMsg path ≠ invalidJsonMsg e
    ∧ ((∃ d, load_har path fs = .ok d) ∨ (∃ m, load_har path fs = .error ⟨1, m⟩)) := by
  intro argv fs path e doc
  refine ⟨?_, ?_, ?_, ?_, ?_, notFound_ne_invalidJson path e, ?_⟩
  · intro h
    simp [main, h]
  · intro h
    simp [runExtract, load_har, h]
  · intro h
    simp [runExtract, load_har, h]
  · intro h hl
    simp [runExtract, load_har, h, hl]
  · intro lg h hl he
    simp [runExtract, load_har, h, hl, he]
  · cases hfs : fs path with
    | fileNotFound => exact Or.inr ⟨notFoundMsg path, by simp [load_har, hfs]⟩
    | invalidJson m => exact Or.inr ⟨invalidJsonMsg m, by simp [load_har, hfs]⟩
    | parsed d => exact Or.inl ⟨d, by simp [load_har, hfs]⟩

/-- Witness for C8 at concrete argv, paths and file-system outcomes for
each fatal case. -/
theorem fatal_errors_spec_witness :
    main [] (fun _ => LoadOutcome.fileNotFound) = .error ⟨1, usageMsg⟩
  ∧ runExtract "f" (fun _ => LoadOutcome.fileNotFound) = .error ⟨1, notFoundMsg "f"⟩
  ∧ runExtract "f" (fun _ => LoadOutcome.invalidJson "x") = .error ⟨1, invalidJsonMsg "x"⟩
  ∧ runExtract "f" (fun _ => LoadOutcome.parsed ⟨none⟩) = .error ⟨1, invalidFormatMsg⟩
  ∧ runExtract "f" (fun _ => LoadOutcome.parsed ⟨some ⟨none⟩⟩) = .error ⟨1, invalidFormatMsg⟩
  ∧ notFoundMsg "f" ≠ invalidJsonMsg "x" := by
  have h1 := fatal_errors_spec [] (fun _ => .fileNotFound) "f" "x" ⟨none⟩
  have h2 := fatal_errors_spec [] (fun _ => .invalidJson "x") "f" "x" ⟨none⟩
  have h3 := fatal_errors_spec [] (fun _ => .parsed ⟨none⟩) "f" "x" ⟨none⟩
  have h4 := fatal_errors_spec [] (fun _ => .parsed ⟨some ⟨none⟩⟩) "f" "x" ⟨some ⟨none⟩⟩
  exact ⟨h1.1 (by decide), h1.2.1 rfl, h2.2.2.1 rfl, h3.2.2.2.1 rfl rfl,
    h4.2.2.2.2.1 ⟨none⟩ rfl rfl rfl, h1.2.2.2.2.2.1⟩

/-! ### Decimal codec round trip -/

theorem digitVal_digitChar (d : Nat) (h : d < 10) : digitVal (digitChar d) = some d := by
  interval_cases d <;> rfl

theorem decDigits_append (acc : Nat) (l₁ l₂ : List Char) :
    decDigits acc (l₁ ++ l₂) =
      match decDigits acc l₁ with
      | some a => decDigits a l₂
      | none => none := by
  induction l₁ generalizing acc with
  | nil => rfl
  | cons c cs ih =>
    cases h : digitVal c with
    | none => simp [decDigits, h]
    | some d => simp [decDigits, h, ih]

theorem decDigits_encNat (n : Nat) :
    ∀ acc, decDigits acc (encNat n) = some (acc * 10 ^ (encNat n).length + n) := by
  induction n using Nat.strong_induction_on with
  | _ n ih =>
    intro acc
    by_cases h : n < 10
    · rw [encNat, dif_pos h]
      simp [decDigits, digitVal_digitChar n h, pow_one]
    · rw [encNat, dif_neg h, decDigits_append,
        ih (n / 10) (Nat.div_lt_self (by omega) (by omega)) acc]
      have hd : digitVal (digitChar (n % 10)) = some (n % 10) :=
        digitVal_digitChar _ (Nat.mod_lt _ (by omega))
      simp only [decDigits, hd, List.length_append, List.length_cons,
        List.length_nil, Nat.zero_add]
      congr 1
      have e1 : (acc * 10 ^ (encNat (n / 10)).length + n / 10) * 10 + n % 10 =
          acc * (10 ^ (encNat (n / 10)).length * 10) + (10 * (n / 10) + n % 10) := by
        ring
      rw [e1, Nat.div_add_mod, pow_succ]

theorem encNat_ne_nil (n : Nat) : encNat n ≠ [] := by
  rw [encNat]
  split <;> simp

theorem decNat_encNat (n : Nat) : decNat (encNat n) = some n := by
  have h := decDigits_encNat n 0
  simp only [Nat.zero_mul, Nat.zero_add] at h
  cases hE : encNat n with
  | nil => exact absurd hE (encNat_ne_nil n)
  | cons c cs =>
    rw [hE] at h
    simpa [decNat] using h

theorem mem_encNat_digit (n : Nat) : ∀ c ∈ encNat n, (digitVal c).isSome := by
  induction n using Nat.strong_induction_on with
  | _ n ih =>
    intro c hc
    rw [encNat] at hc
    by_cases h : n < 10
    · rw [dif_pos h] at hc
      simp only [List.mem_singleton] at hc
      subst hc
      rw [digitVal_digitChar n h]
      rfl
    · rw [dif_neg h, List.mem_append] at hc
      rcases hc with hc | hc
      · exact ih (n / 10) (Nat.div_lt_self (by omega) (by omega)) c hc
      · simp only [List.mem_singleton] at hc
        subst hc
        rw [digitVal_digitChar _ (Nat.mod_lt _ (by omega))]
        rfl

theorem head_encNat_ne_minus (n : Nat) (c : Char) (cs : List Char)
    (h : encNat n = c :: cs) : c ≠ '-' := by
  intro hc
  have hm := mem_encNat_digit n c (h ▸ List.mem_cons_self c cs)
  rw [hc] at hm
  have : digitVal '-' = none := by decide
  rw [this] at hm
  simp at hm

theorem decInt_encInt (i : Int) : decInt (encInt i) = some i := by
  by_cases h : i < 0
  · rw [encInt, if_pos h]
    have hdata : (⟨'-' :: encNat i.natAbs⟩ : String).data = '-' :: encNat i.natAbs := rfl
    simp only [decInt, hdata, if_pos, reduceIte, decNat_encNat, Option.map_some']
    congr 1
    omega
  · rw [encInt, if_neg h]
    cases hE : encNat i.toNat with
    | nil => exact absurd hE (encNat_ne_nil _)
    | cons c cs =>
      have hc : c ≠ '-' := head_encNat_ne_minus _ _ _ hE
      have hdata : (⟨encNat i.toNat⟩ : String).data = c :: cs := hE
      simp only [decInt, hdata, if_neg hc]
      rw [← hE, decNat_encNat]
      simp only [Option.map_some']
      congr 1
      omega

theorem jnat_natCast (c : Nat) : jnat (.num (c : ℚ)) = some c := by
  simp [jnat, Rat.num_natCast, Rat.den_natCast]

theorem jint_intCast (s : Int) : jint (.num (s : ℚ)) = some s := by
  simp [jint, Rat.den_intCast, Rat.num_intCast]

theorem decodeStatusDist_enc (h : List (Int × Nat)) :
    decodeStatusDist (h.map (fun p => (encInt p.1, JVal.num (p.2 : ℚ)))) = some h := by
  induction h with
  | nil => rfl
  | cons p t ih =>
    cases p with
    | mk s c => simp [decodeStatusDist, decInt_encInt, jnat_natCast, ih]

theorem decodeSlow_slowJson (r : TimingInfo) :
    decodeSlow (slowJson r) = some (r.url, r.method, r.status, r.total_time) := by
  simp [decodeSlow, slowJson, getField, jstring, jnum, jint_intCast]

theorem decodeSlowList_enc (l : List TimingInfo) :
    decodeSlowList (l.map slowJson) =
      some (l.map (fun r => (r.url, r.method, r.status, r.total_time))) := by
  induction l with
  | nil => rfl
  | cons r t ih => simp [decodeSlowList, decodeSlow_slowJson, ih]

/-- C4: re-parsing the exported document recovers the in-memory record
count, the in-memory status histogram, and the in-memory slowest-10 list
in order with its url, method, status and total time values. -/
theorem export_roundtrip (path : String) (records : List TimingInfo) :
    readExport (export_to_json path records) =
      some (records.length, get_requests_by_status records,
        (get_slowest_requests records 10).map
          (fun r => (r.url, r.method, r.status, r.total_time))) := by
  simp [readExport, export_to_json, getField, statusDistJson, jnat_natCast,
    decodeStatusDist_enc, decodeSlowList_enc]

end Har
